import Mathlib

/-!
Verification of the uio reader (src/uio.py).

The Python module reads a self-describing binary container format built on
Fortran-style sequential unformatted records.  We give a shallow embedding:
the shared open file handle becomes an explicit `UStream` record (its byte
content, the current offset, and a closed flag), Python exceptions become an
`Err` sum threaded through `Except`, and numpy arrays become lists of `Elem`
values.  Machine floats are identified by their IEEE-754 bit patterns (the
reader never does float arithmetic: it only decodes big-endian bytes and
converts them to host order, which preserves the bit pattern).

Bounded loops of the source (the continuation-marker loop of `_read_string`
and the three tree-building loops) take an explicit fuel parameter; fuel
exhaustion yields the dedicated `Err.outOfFuel`, which never occurs for
adequate fuel.  `fileOpen` supplies `bytes.length + 1` fuel, far more than
the possible number of iterations (every successful record read consumes at
least eight bytes).
-/

/-- Text is modelled as a list of characters (Python `str`). -/
abbrev Str := List Char

/-- Coerce a Lean string literal to the `Str` model. -/
def str (s : String) : Str := s.data

/-- Python byte strings are lists of byte values. -/
abbrev Bytes := List Nat

/-- Encode model text as bytes (ASCII; the source only handles ASCII text). -/
def encodeStr (s : Str) : Bytes := s.map Char.toNat

/-- Bytes of a Lean string literal. -/
def strBytes (s : String) : Bytes := encodeStr (str s)

/-- Decode bytes to text, mirroring `bytes.decode()` on ASCII input. -/
def decodeBytes (bs : Bytes) : Str := bs.map Char.ofNat

/-- Errors raised by the source, tagged by the Python exception raised there.
`outOfFuel` is a modelling artifact for the explicit fuel of loops. -/
inductive Err where
  | eofError
  | ioError (msg : Str)
  | typeError
  | valueError (msg : Str)
  | keyError (key : Str)
  | indexError
  | attributeError
  | zeroDivisionError
  | outOfFuel
deriving DecidableEq

/-- The shared byte source: content of the underlying file, current offset,
and whether `close()` has been called. -/
structure UStream where
  bytes : Bytes
  pos : Nat
  closed : Bool
deriving DecidableEq

/-- `f.read(n)`: returns up to `n` bytes from the current offset and
advances; fails on a closed file. -/
def fread (f : UStream) (n : Nat) : Except Err (Bytes × UStream) :=
  if f.closed then .error (.valueError (str "read of closed file"))
  else
    let d := (f.bytes.drop f.pos).take n
    .ok (d, { f with pos := f.pos + d.length })

/-- `f.seek(p)` (absolute): fails on a closed file. -/
def fseek (f : UStream) (p : Nat) : Except Err UStream :=
  if f.closed then .error (.valueError (str "seek of closed file"))
  else .ok { f with pos := p }

/-- `f.seek(n, 1)` (relative): may move past the end of the data, exactly as
a POSIX file allows. -/
def fseekRel (f : UStream) (n : Nat) : Except Err UStream :=
  if f.closed then .error (.valueError (str "seek of closed file"))
  else .ok { f with pos := f.pos + n }

/-- `f.close()`. -/
def fclose (f : UStream) : UStream := { f with closed := true }

/-- Big-endian byte decoding (`Struct('>I').unpack` and numpy `>` dtypes). -/
def beNat (bs : Bytes) : Nat := bs.foldl (fun a b => a * 256 + b) 0

/-- Big-endian encoding of a value into `w` bytes (used to build the
concrete input streams of the theorems below). -/
def beBytes : Nat → Nat → Bytes
  | 0, _ => []
  | w + 1, x => beBytes w (x / 256) ++ [x % 256]

/-- `_read_block_size`: read exactly four bytes, big-endian; `EOFError`
when fewer than four bytes are available. -/
def _read_block_size (f : UStream) : Except Err (Nat × UStream) := do
  let (d, f) ← fread f 4
  if d.length ≠ 4 then .error .eofError
  else .ok (beNat d, f)

/-- `_read_block`: leading length, payload, trailing length; the two length
words must agree. -/
def _read_block (f : UStream) : Except Err (Bytes × UStream) := do
  let (nbytes, f) ← _read_block_size f
  let (d, f) ← fread f nbytes
  let (m, f) ← _read_block_size f
  if nbytes ≠ m then .error (.ioError (str "error reading block"))
  else .ok (d, f)

/-- `_skip_block`: like `_read_block` but advances with a relative seek
instead of copying the payload. -/
def _skip_block (f : UStream) : Except Err UStream := do
  let (nbytes, f) ← _read_block_size f
  let f ← fseekRel f nbytes
  let (m, f) ← _read_block_size f
  if nbytes ≠ m then .error (.ioError (str "error skipping block"))
  else .ok f

/-- Byte values stripped by Python `bytes.rstrip()`. -/
def isSpaceByte (b : Nat) : Bool := b = 32 || b = 9 || b = 10 || b = 13 || b = 11 || b = 12

/-- `bytes.rstrip()`: drop trailing ASCII whitespace. -/
def bytesRstrip (bs : Bytes) : Bytes := (bs.reverse.dropWhile isSpaceByte).reverse

/-- Continuation loop of `_read_string`: while the stripped text ends with
the marker byte 38, the ASCII ampersand, drop the marker and append the next
block. -/
def _read_string_go : Nat → Bytes → UStream → Except Err (Bytes × UStream)
  | 0, _, _ => .error .outOfFuel
  | fuel + 1, s, f =>
    if (bytesRstrip s).getLast? = some 38 then do
      let (d, f) ← _read_block f
      _read_string_go fuel ((bytesRstrip s).dropLast ++ d) f
    else .ok (bytesRstrip s, f)

/-- `_read_string`: one block, then continuation reassembly. -/
def _read_string (fuel : Nat) (f : UStream) : Except Err (Bytes × UStream) := do
  let (s, f) ← _read_block f
  _read_string_go fuel s f

/-- ASCII approximation of the regex class backslash-w (the source only
feeds ASCII descriptor text). -/
def isWordChar (c : Char) : Bool := c.isAlphanum || c = '_'

/-- ASCII whitespace, the complement of the regex class backslash-S. -/
def isPySpace (c : Char) : Bool :=
  c = ' ' || c = '\t' || c = '\n' || c = '\r' || c = '\x0b' || c = '\x0c'

/-- The tail group of `_re_desc`: `.` does not match a newline and the
dollar anchor matches at the end or just before one final trailing
newline. -/
def dotStarDollar (l : Str) : Option Str :=
  if l.contains '\n' = false then some l
  else if l.getLast? = some '\n' ∧ l.dropLast.contains '\n' = false then some l.dropLast
  else none

/-- The anchored match of the pattern of `_re_desc`: word characters, one
space, word characters, an optional space, then the rest of the line.  The
greedy quantifiers are forced here because a space never is a word
character, so the deterministic maximal munch below is the regex match. -/
def matchDesc (s : Str) : Option (Str × Str × Str) :=
  let w1 := s.takeWhile isWordChar
  let r1 := s.dropWhile isWordChar
  if w1.isEmpty then none else
  match r1 with
  | ' ' :: r2 =>
    let w2 := r2.takeWhile isWordChar
    let r3 := r2.dropWhile isWordChar
    if w2.isEmpty then none else
    let r4 := match r3 with
      | ' ' :: t => t
      | t => t
    match dotStarDollar r4 with
    | some g3 => some (w1, w2, g3)
    | none => none
  | _ => none

/-- One attempted match of `_re_params` at the head of `l`: a word run, an
equals sign, then either a quoted value or a maximal non-space run.  Returns
the matched token and the remainder. -/
def tryParamAt (l : Str) : Option (Str × Str) :=
  let w := l.takeWhile isWordChar
  let r1 := l.drop w.length
  if w.isEmpty then none else
  match r1 with
  | '=' :: r2 =>
    let fallback : Option (Str × Str) :=
      let v := r2.takeWhile (fun c => !isPySpace c)
      if v.isEmpty then none else some (w ++ '=' :: v, r2.drop v.length)
    match r2 with
    | '\'' :: r3 =>
      let q := r3.takeWhile (fun c => c ≠ '\'')
      match r3.drop q.length with
      | '\'' :: r5 => some (w ++ '=' :: '\'' :: q ++ ['\''], r5)
      | _ => fallback
    | _ => fallback
  | _ => none

/-- `findall` scan of `_re_params`: leftmost non-overlapping matches. -/
def scanParams : Nat → Str → List Str
  | 0, _ => []
  | _, [] => []
  | fuel + 1, l =>
    match tryParamAt l with
    | some (tok, l') => tok :: scanParams fuel l'
    | none => scanParams fuel l.tail

/-- `_re_params.findall(pstr)`. -/
def findParams (s : Str) : List Str := scanParams (s.length + 1) s

/-- Python dict assignment `d[k] = v`: overwrite in place, else append. -/
def dictInsert (d : List (Str × Str)) (k v : Str) : List (Str × Str) :=
  if (d.find? (fun p => p.1 = k)).isSome then
    d.map (fun p => if p.1 = k then (k, v) else p)
  else d ++ [(k, v)]

/-- Python dict membership and item access combined: first value stored
under the key. -/
def dictGet? (d : List (Str × Str)) (k : Str) : Option Str :=
  (d.find? (fun p => p.1 = k)).map (fun p => p.2)

/-- The token-processing loop of `_parse_descriptor`: split each token at
its first equals sign and strip a surrounding pair of single quotes. -/
def _parse_params (pstr : Str) : List (Str × Str) :=
  (findParams pstr).foldl
    (fun params it =>
      let key := it.takeWhile (fun c => c ≠ '=')
      let value := (it.drop key.length).drop 1
      let value :=
        if value.head? = some '\'' ∧ value.getLast? = some '\'' then
          (value.drop 1).dropLast
        else value
      dictInsert params key value)
    []

/-- `_parse_descriptor`: decode the record bytes and match `_re_desc`;
`none` is the no-match result. -/
def _parse_descriptor (bs : Bytes) : Option (Str × Str × List (Str × Str)) :=
  match matchDesc (decodeBytes bs) with
  | none => none
  | some (etype, name, pstr) => some (etype, name, _parse_params pstr)

/-- The numpy scalar dtypes produced by `_read_entry`: float, signed
integer, fixed-width character, and complex of a given byte width. -/
inductive DType where
  | f (w : Int)
  | i (w : Int)
  | s (w : Int)
  | c (w : Int)
deriving DecidableEq

/-- `np.dtype(None)` is float64; otherwise the stored dtype. -/
def npDtypeOf : Option DType → DType
  | none => .f 8
  | some d => d

/-- `np.dtype(...)` construction: the widths accepted by numpy for each
letter code (a bad width raises `TypeError`); the itemsize otherwise. -/
def npItemsize : DType → Except Err Nat
  | .f w => if w ∈ ([2, 4, 8, 16] : List Int) then .ok w.toNat else .error .typeError
  | .i w => if w ∈ ([1, 2, 4, 8] : List Int) then .ok w.toNat else .error .typeError
  | .c w => if w ∈ ([8, 16, 32] : List Int) then .ok w.toNat else .error .typeError
  | .s w => if 0 ≤ w then .ok w.toNat else .error .typeError

/-- One array element after conversion to host byte order.  Numeric
elements are identified by their width and bit pattern (decoding big-endian
bytes and converting to host order preserves the pattern); character
elements keep their raw fixed-width bytes. -/
inductive Elem where
  | float (w : Int) (bits : Nat)
  | int (w : Int) (bits : Nat)
  | strE (bs : Bytes)
  | cplx (w : Int) (bits : Nat)
deriving DecidableEq

/-- Interpret one big-endian chunk as an element of the given dtype. -/
def elemOf (dt : DType) (chunk : Bytes) : Elem :=
  match dt with
  | .f w => .float w (beNat chunk)
  | .i w => .int w (beNat chunk)
  | .s _ => .strE chunk
  | .c w => .cplx w (beNat chunk)

/-- Chunking loop body, structurally recursive on a fuel bound. -/
def chunksGo (w : Nat) : Nat → Bytes → List Bytes
  | 0, _ => []
  | fuel + 1, l =>
    if w = 0 ∨ l.length < w then []
    else l.take w :: chunksGo w fuel (l.drop w)

/-- Split into complete chunks of `w` bytes, dropping an incomplete tail,
as `np.fromfile` yields only complete items. -/
def chunks (w : Nat) (l : Bytes) : List Bytes := chunksGo w (l.length + 1) l

/-- `_read_array`: one record interpreted as `nbytes / itemsize` big-endian
elements, then converted to host byte order. -/
def _read_array (f : UStream) (dt : Option DType) : Except Err (List Elem × UStream) := do
  let dtype := npDtypeOf dt
  let isz ← npItemsize dtype
  let (nbytes, f) ← _read_block_size f
  if isz = 0 then .error .zeroDivisionError
  else
    let count := nbytes / isz
    let (raw, f) ← fread f (count * isz)
    let a := (chunks isz raw).map (elemOf dtype)
    let (m, f) ← _read_block_size f
    if nbytes ≠ m then .error (.ioError (str "error reading array"))
    else .ok (a, f)

/-- One parsed, positioned, shape-resolved field (class `Entry`). -/
structure Entry where
  pos : Nat
  type : Str
  name : Str
  params : List (Str × Str)
  dtype : Option DType
  shape : Option (List Int)
deriving DecidableEq

/-- Numpy strips the trailing run of NUL bytes when a fixed-width byte
string element is extracted as a scalar. -/
def npStripNuls (bs : Bytes) : Bytes := (bs.reverse.dropWhile (fun b => b = 0)).reverse

/-- The value of an `Entry.data` access. -/
inductive DataVal where
  | scalar (e : Elem)
  | arr (shape : List Int) (elems : List Elem)
  | strScalar (s : Bytes)
  | strList (ss : List Bytes)
deriving DecidableEq

/-- `ndarray.reshape(shape)`: the flat element list tagged with the shape;
`ValueError` when the sizes disagree.  (The `-1` inference rule of numpy is
not modelled; no entry of the format carries a negative extent.) -/
def npReshape (sh : List Int) (elems : List Elem) : Except Err DataVal :=
  if sh.all (fun d => 0 ≤ d) ∧ sh.foldl (fun a d => a * d.toNat) 1 = elems.length then
    .ok (.arr sh elems)
  else .error (.valueError (str "cannot reshape array"))

/-- A list element of a character array: fails when the element is not a
byte string (`AttributeError` on `rstrip`). -/
def charElem (e : Elem) : Except Err Bytes :=
  match e with
  | .strE bs => .ok (npStripNuls bs)
  | _ => .error .attributeError

/-- The `data` property of `Entry`: seek to the stored position, read the
typed array, then reshape or trim by kind and shape exactly as the source
does. -/
def Entry.data (e : Entry) (f : UStream) : Except Err (DataVal × UStream) := do
  let f ← fseek f e.pos
  let (a, f) ← _read_array f e.dtype
  if e.type ≠ str "character" then
    match e.shape with
    | some sh => do
      let v ← npReshape sh a
      .ok (v, f)
    | none =>
      match a.head? with
      | some x => .ok (.scalar x, f)
      | none => .error .indexError
  else
    match e.shape with
    | none =>
      match a.head? with
      | some x => do
        let bs ← charElem x
        .ok (.strScalar (bytesRstrip bs), f)
      | none => .error .indexError
    | some sh =>
      if sh.length = 1 then do
        let ss ← a.mapM (fun x => do
          let bs ← charElem x
          pure (bytesRstrip bs))
        .ok (.strList ss, f)
      else do
        let v ← npReshape sh a
        .ok (v, f)

/-- A digit run read as a number (`int(...)` on the regex match). -/
def natOfDigits (ds : Str) : Nat := ds.foldl (fun a c => a * 10 + (c.toNat - 48)) 0

/-- `int(text)`: strip surrounding whitespace, optional sign, digits. -/
def pyInt? (s : Str) : Option Int :=
  let t := ((s.dropWhile isPySpace).reverse.dropWhile isPySpace).reverse
  match t with
  | '-' :: ds => if ds ≠ [] ∧ ds.all Char.isDigit then some (-(natOfDigits ds : Int)) else none
  | '+' :: ds => if ds ≠ [] ∧ ds.all Char.isDigit then some ((natOfDigits ds : Int)) else none
  | ds => if ds ≠ [] ∧ ds.all Char.isDigit then some ((natOfDigits ds : Int)) else none

/-- One attempted match of `_re_dims` at the head of `l`: a digit run, a
colon, a digit run.  Returns the two digit runs and the remainder. -/
def tryDimAt (l : Str) : Option ((Str × Str) × Str) :=
  let d1 := l.takeWhile Char.isDigit
  let r1 := l.drop d1.length
  if d1.isEmpty then none else
  match r1 with
  | ':' :: r2 =>
    let d2 := r2.takeWhile Char.isDigit
    if d2.isEmpty then none else some ((d1, d2), r2.drop d2.length)
  | _ => none

/-- `findall` scan of `_re_dims`. -/
def scanDims : Nat → Str → List (Str × Str)
  | 0, _ => []
  | _, [] => []
  | fuel + 1, l =>
    match tryDimAt l with
    | some (p, l') => p :: scanDims fuel l'
    | none => scanDims fuel l.tail

/-- `_re_dims.findall(dtxt)`, each match already split at its colon. -/
def findDims (s : Str) : List (Str × Str) := scanDims (s.length + 1) s

/-- The shape loop of `_read_entry`: per matched range append
`hi - lo + 1`, then reverse the accumulated list. -/
def shapeFromD (dtxt : Str) : List Int :=
  ((findDims dtxt).foldl
    (fun acc p => acc ++ [(natOfDigits p.2 : Int) - (natOfDigits p.1 : Int) + 1]) []).reverse

/-- `_read_entry`: read and parse one descriptor record, reject tables,
derive the dtype from the kind and the `b` parameter and the shape from the
`d` parameter, and record the position of the following record. -/
def _read_entry (fuel : Nat) (f : UStream) : Except Err (Entry × UStream) := do
  let (s, f) ← _read_string fuel f
  match _parse_descriptor s with
  | none => .error .typeError
  | some (etype, name, params) =>
    if etype = str "table" then
      .error (.ioError (str "uio files containing tables are not supported"))
    else
      let pos := f.pos
      let dtype ← (match dictGet? params (str "b") with
        | none => Except.ok (none : Option DType)
        | some btxt =>
          match pyInt? btxt with
          | none => Except.error (Err.valueError (str "invalid literal for int"))
          | some nbytes =>
            Except.ok (
              if etype = str "real" then some (DType.f nbytes)
              else if etype = str "integer" then some (DType.i nbytes)
              else if etype = str "character" then some (DType.s nbytes)
              else if etype = str "complex" then some (DType.c nbytes)
              else none))
      let shape : Option (List Int) :=
        match dictGet? params (str "d") with
        | none => none
        | some dtxt => some (shapeFromD dtxt)
      .ok (⟨pos, etype, name, params, dtype, shape⟩, f)

/-- A flat named group of entries (class `Box`). -/
structure Box where
  pos : Nat
  params : List (Str × Str)
  entries : List Entry
deriving DecidableEq

/-- A named group of entries and boxes (class `DataSet`). -/
structure DataSet where
  pos : Nat
  params : List (Str × Str)
  entries : List Entry
  box : List Box
deriving DecidableEq

/-- An element of the mixed list built by `_read_dataset_entries`. -/
inductive DSItem where
  | entry (e : Entry)
  | box (b : Box)
deriving DecidableEq

/-- An element of the mixed list built by `_read_file_entries`. -/
inductive FItem where
  | entry (e : Entry)
  | ds (d : DataSet)
deriving DecidableEq

/-- `_read_box_entries`: loop until a label named `endbox`; every other
entry is appended and its payload record skipped. -/
def _read_box_entries : Nat → UStream → Except Err (List Entry × UStream)
  | 0, _ => .error .outOfFuel
  | fuel + 1, f => do
    let (entry, f) ← _read_entry (fuel + 1) f
    if entry.type = str "label" ∧ entry.name = str "endbox" then
      .ok ([], f)
    else do
      let f ← _skip_block f
      let (rest, f) ← _read_box_entries fuel f
      .ok (entry :: rest, f)

/-- `_read_dataset_entries`: loop until a label named `enddataset`; a label
named `box` recurses into the box reader (the box position is taken before
its body is read); any other label falls through the inner conditional with
no action; non-label entries are appended and their payload skipped. -/
def _read_dataset_entries : Nat → UStream → Except Err (List DSItem × UStream)
  | 0, _ => .error .outOfFuel
  | fuel + 1, f => do
    let (entry, f) ← _read_entry (fuel + 1) f
    if entry.type = str "label" then
      if entry.name = str "enddataset" then .ok ([], f)
      else if entry.name = str "box" then do
        let bpos := f.pos
        let (bentries, f) ← _read_box_entries (fuel + 1) f
        let (rest, f) ← _read_dataset_entries fuel f
        .ok (.box ⟨bpos, entry.params, bentries⟩ :: rest, f)
      else
        _read_dataset_entries fuel f
    else do
      let f ← _skip_block f
      let (rest, f) ← _read_dataset_entries fuel f
      .ok (.entry entry :: rest, f)

/-- `_read_file_entries`: loop until `EOFError` from the entry reader (the
normal end of input); a label named `dataset` recurses into the dataset
reader and partitions its mixed result (the dataset position is taken after
its body); anything else is appended and its payload skipped. -/
def _read_file_entries : Nat → UStream → Except Err (List FItem × UStream)
  | 0, _ => .error .outOfFuel
  | fuel + 1, f =>
    match _read_entry (fuel + 1) f with
    | .error .eofError => .ok ([], f)
    | .error e => .error e
    | .ok (entry, f) =>
      if entry.type = str "label" ∧ entry.name = str "dataset" then do
        let (items, f) ← _read_dataset_entries (fuel + 1) f
        let ds : DataSet :=
          ⟨f.pos, entry.params,
            items.filterMap (fun it => match it with | .entry e => some e | _ => none),
            items.filterMap (fun it => match it with | .box b => some b | _ => none)⟩
        match _read_file_entries fuel f with
        | .ok (rest, f) => .ok (.ds ds :: rest, f)
        | .error e => .error e
      else do
        let f ← _skip_block f
        let (rest, f) ← _read_file_entries fuel f
        .ok (.entry entry :: rest, f)

/-- `_read_file_header`: read the first record as text and require the
descriptor `fileform uio`; the remaining parameters are the header. -/
def _read_file_header (fuel : Nat) (f : UStream) :
    Except Err (List (Str × Str) × UStream) := do
  let (hs, f) ← _read_string fuel f
  match _parse_descriptor hs with
  | none => .error .typeError
  | some (ff, uio, header) =>
    if ff ≠ str "fileform" ∨ uio ≠ str "uio" then
      .error (.ioError (str "unknown file format"))
    else .ok (header, f)

/-- The parsed container (class `File`): header parameters, top-level
entries, top-level datasets. -/
structure UioFile where
  header : List (Str × Str)
  entries : List Entry
  dataset : List DataSet
deriving DecidableEq

/-- `File.__init__` on an already opened byte source: check the magic
bytes 4..16, rewind, parse the header, run the file context to exhaustion
and partition the result. -/
def fileOpen (f : UStream) : Except Err (UioFile × UStream) := do
  let fuel := f.bytes.length + 1
  let (mag, f) ← fread f 16
  if mag.drop 4 ≠ strBytes "fileform uio" then
    .error (.ioError (str "unsupported file format"))
  else do
    let f ← fseek f 0
    let (header, f) ← _read_file_header fuel f
    let (items, f) ← _read_file_entries fuel f
    .ok (⟨header,
          items.filterMap (fun it => match it with | .entry e => some e | _ => none),
          items.filterMap (fun it => match it with | .ds d => some d | _ => none)⟩, f)

/-- `_EntryMapping.__getitem__`: linear scan by name, first match wins,
`KeyError` on a miss.  It inspects only the in-memory entry list and never
touches the byte source. -/
def _EntryMapping_getitem (entries : List Entry) (key : Str) : Except Err Entry :=
  match entries.find? (fun e => e.name = key) with
  | some e => .ok e
  | none => .error (.keyError key)

/-- Name lookup on the container's top-level entries. -/
def UioFile.lookup (uf : UioFile) (key : Str) : Except Err Entry :=
  _EntryMapping_getitem uf.entries key

/-- A record as laid out on disk: length word, payload, length word. -/
def recBytes (payload : Bytes) : Bytes :=
  beBytes 4 payload.length ++ payload ++ beBytes 4 payload.length

deriving instance DecidableEq for Except

/-! ## Concrete input streams used by the claims -/

/-- The end-to-end stream of the spec: header record `fileform uio test`,
one `real name b=8 d=1:3` descriptor record, then a payload record holding
three big-endian IEEE-754 binary64 floats 1.0, 2.0, 3.0 (bit patterns
0x3FF0000000000000, 0x4000000000000000, 0x4008000000000000). -/
def c1Bytes : Bytes :=
  recBytes (strBytes "fileform uio test") ++
  recBytes (strBytes "real name b=8 d=1:3") ++
  recBytes (beBytes 8 0x3FF0000000000000 ++ beBytes 8 0x4000000000000000 ++
            beBytes 8 0x4008000000000000)

/-- The end-to-end stream, opened at offset zero. -/
def c1Stream : UStream := ⟨c1Bytes, 0, false⟩

/-- The scenario of the end-to-end claim as one composed run:
open, look up `name`, read its data. -/
def c1Run : Except Err DataVal := do
  let (uf, f') ← fileOpen c1Stream
  let e ← uf.lookup (str "name")
  let (v, _) ← e.data f'
  .ok v

/-- A stream whose dataset body holds a label descriptor named `foo`,
which is none of `dataset`, `enddataset`, `box`, `endbox`. -/
def c2Bytes : Bytes :=
  recBytes (strBytes "fileform uio test") ++
  recBytes (strBytes "label dataset") ++
  recBytes (strBytes "label foo") ++
  recBytes (strBytes "label enddataset")

/-- The run of the corrected use-after-close claim: open the end-to-end
stream, close the byte source, then look up `name` on the container. -/
def c5Run : Except Err (Entry × UStream) := do
  let (uf, f') ← fileOpen c1Stream
  let fc := fclose f'
  let e ← uf.lookup (str "name")
  .ok (e, fc)

/-! ## C1 -/

/-- C1: on the stream holding the header record `fileform uio test`, the
descriptor `real name b=8 d=1:3` and a payload record of three big-endian
binary64 floats 1.0, 2.0, 3.0, `open` succeeds and `lookup("name").data`
yields the ordered host-order sequence 1.0, 2.0, 3.0 (elements identified
by their IEEE-754 bit patterns, which the big-endian-to-host conversion
preserves), with shape `(3,)`. -/
theorem c1_end_to_end :
    c1Run = .ok (.arr [3]
      [.float 8 0x3FF0000000000000, .float 8 0x4000000000000000,
       .float 8 0x4008000000000000]) := by
  decide

/-! ## C2 -/

/-- C2 counterexample: on `c2Bytes` the dataset body contains the label
descriptor `label foo`, whose name is none of the four structural label
names, yet the resulting dataset has an empty entry list (and an empty box
list): the dataset context silently drops such labels instead of appending
them.  The file parses to one dataset at position 87 and nothing else. -/
theorem c2_label_dropped_in_dataset :
    fileOpen ⟨c2Bytes, 0, false⟩ =
      .ok (⟨[], [], [⟨87, [], [], []⟩]⟩, ⟨c2Bytes, 87, false⟩) := by
  decide

/-- C2 amended claim: a label descriptor whose name is none of `dataset`,
`enddataset`, `box`, `endbox` is appended to the enclosing entry list like
any non-label entry (with its following record skipped) in the file context
and in the box context; in the dataset context it is silently dropped:
nothing is appended, no record is skipped, and parsing resumes directly
after the descriptor record. -/
theorem c2_other_labels_by_context (fuel : Nat) (f f1 f2 : UStream) (e : Entry)
    (hread : _read_entry (fuel + 1) f = .ok (e, f1))
    (hlab : e.type = str "label")
    (hds : e.name ≠ str "dataset") (hed : e.name ≠ str "enddataset")
    (hbx : e.name ≠ str "box") (heb : e.name ≠ str "endbox")
    (hskip : _skip_block f1 = .ok f2) :
    _read_file_entries (fuel + 1) f =
      (match _read_file_entries fuel f2 with
       | .ok (rest, f3) => .ok (FItem.entry e :: rest, f3)
       | .error err => .error err) ∧
    _read_box_entries (fuel + 1) f =
      (match _read_box_entries fuel f2 with
       | .ok (rest, f3) => .ok (e :: rest, f3)
       | .error err => .error err) ∧
    _read_dataset_entries (fuel + 1) f = _read_dataset_entries fuel f1 := by
  refine ⟨?_, ?_, ?_⟩
  · simp only [_read_file_entries, hread]
    rw [if_neg (fun h => hds h.2)]
    simp only [hskip, Bind.bind, Except.bind]
    cases hrec : _read_file_entries fuel f2 with
    | ok p =>
      cases p
      rfl
    | error err => rfl
  · simp only [_read_box_entries, hread, Bind.bind, Except.bind]
    rw [if_neg (fun h => heb h.2)]
    simp only [hskip]
    cases hrec : _read_box_entries fuel f2 with
    | ok p =>
      cases p
      rfl
    | error err => rfl
  · simp only [_read_dataset_entries, hread, Bind.bind, Except.bind]
    rw [if_pos hlab]
    rw [if_neg hed, if_neg hbx]

/-- A two-record stream for witnessing the amended C2: the descriptor
`label foo` and an empty payload record. -/
def c2wBytes : Bytes := recBytes (strBytes "label foo") ++ recBytes []

/-- Witness for the amended C2 at a concrete stream: instantiates every
hypothesis at the two-record stream above. -/
theorem c2_other_labels_by_context_witness :
    _read_file_entries 2 ⟨c2wBytes, 0, false⟩ =
      (match _read_file_entries 1 ⟨c2wBytes, 25, false⟩ with
       | .ok (rest, f3) =>
         .ok (FItem.entry ⟨17, str "label", str "foo", [], none, none⟩ :: rest, f3)
       | .error err => .error err) ∧
    _read_box_entries 2 ⟨c2wBytes, 0, false⟩ =
      (match _read_box_entries 1 ⟨c2wBytes, 25, false⟩ with
       | .ok (rest, f3) =>
         .ok ((⟨17, str "label", str "foo", [], none, none⟩ : Entry) :: rest, f3)
       | .error err => .error err) ∧
    _read_dataset_entries 2 ⟨c2wBytes, 0, false⟩ =
      _read_dataset_entries 1 ⟨c2wBytes, 17, false⟩ :=
  c2_other_labels_by_context 1 ⟨c2wBytes, 0, false⟩ ⟨c2wBytes, 17, false⟩
    ⟨c2wBytes, 25, false⟩ ⟨17, str "label", str "foo", [], none, none⟩
    (by decide) (by decide) (by decide) (by decide) (by decide) (by decide) (by decide)

/-! ## C5 -/

/-- C5 counterexample: on the end-to-end stream, after `close()` the name
lookup of the top-level entry `name` still succeeds, returning the entry
(it scans only the in-memory entry list and never consults the byte
source), so not every post-close operation fails. -/
theorem c5_lookup_survives_close :
    c5Run = .ok
      (⟨52, str "real", str "name", [(str "b", str "8"), (str "d", str "1:3")],
        some (.f 8), some [3]⟩,
       ⟨c1Bytes, 84, true⟩) := by
  decide

/-- C5 amended claim: after `close()`, data access on an Entry fails with
the closed-file error raised by the seek; name lookup, in contrast, never
consults the byte source: it succeeds for every name present in the entry
list regardless of the closed state. -/
theorem c5_close_semantics :
    (∀ (e : Entry) (f : UStream), f.closed = true →
      Entry.data e f = .error (.valueError (str "seek of closed file"))) ∧
    (∀ (entries : List Entry) (k : Str),
      (∃ e ∈ entries, e.name = k) →
      ∃ e2, _EntryMapping_getitem entries k = .ok e2) := by
  constructor
  · intro e f h
    simp [Entry.data, fseek, h, Bind.bind, Except.bind]
  · intro entries k hex
    have hs : (entries.find? (fun e => e.name = k)).isSome := by
      rw [List.find?_isSome]
      obtain ⟨e, he, hname⟩ := hex
      exact ⟨e, he, by simp [hname]⟩
    obtain ⟨e2, hf⟩ := Option.isSome_iff_exists.mp hs
    exact ⟨e2, by simp [_EntryMapping_getitem, hf]⟩

/-- Witness for the amended C5: a concrete closed stream on which data
access fails, and a concrete one-entry list on which lookup succeeds. -/
theorem c5_close_semantics_witness :
    Entry.data ⟨0, str "real", str "x", [], none, none⟩ ⟨[], 0, true⟩ =
      .error (.valueError (str "seek of closed file")) ∧
    ∃ e2, _EntryMapping_getitem [⟨0, str "real", str "x", [], none, none⟩] (str "x") = .ok e2 :=
  ⟨c5_close_semantics.1 ⟨0, str "real", str "x", [], none, none⟩ ⟨[], 0, true⟩ rfl,
   c5_close_semantics.2 [⟨0, str "real", str "x", [], none, none⟩] (str "x") (by decide)⟩

/-! ## Helper lemmas for the record-layout theorems -/

/-- Reduction of an `Except` bind on a success value. -/
theorem except_bind_ok {α β : Type} (x : α) (k : α → Except Err β) :
    (Except.ok x : Except Err α) >>= k = k x := rfl

/-- Reduction of an `Except` bind on an error value. -/
theorem except_bind_error {α β : Type} (e : Err) (k : α → Except Err β) :
    (Except.error e : Except Err α) >>= k = .error e := rfl

/-- A big-endian encoding of width `w` has `w` bytes. -/
theorem beBytes_length (w x : Nat) : (beBytes w x).length = w := by
  induction w generalizing x with
  | zero => simp [beBytes]
  | succ w ih => simp [beBytes, ih]

/-- Decoding inverts the big-endian encoding below `256 ^ w`. -/
theorem beNat_beBytes (w x : Nat) (h : x < 256 ^ w) : beNat (beBytes w x) = x := by
  induction w generalizing x with
  | zero =>
    simp [beBytes, beNat]
    omega
  | succ w ih =>
    have hlt : x / 256 < 256 ^ w := by
      rw [Nat.div_lt_iff_lt_mul (by norm_num : (0:Nat) < 256)]
      calc x < 256 ^ (w + 1) := h
        _ = 256 ^ w * 256 := by ring
    have := ih (x / 256) hlt
    simp only [beBytes, beNat, List.foldl_append] at this ⊢
    simp only [List.foldl_cons, List.foldl_nil, this]
    omega

/-- `fread` on an open stream positioned at the end of a known prefix. -/
theorem fread_at (A B : Bytes) (k : Nat) :
    fread ⟨A ++ B, A.length, false⟩ k =
      .ok (B.take k, ⟨A ++ B, A.length + (B.take k).length, false⟩) := by
  simp [fread, List.drop_left]

/-- `_read_block_size` on an open stream positioned at an encoded length
word. -/
theorem rbs_at (A B : Bytes) (n : Nat) (h4 : n < 2 ^ 32) :
    _read_block_size ⟨A ++ (beBytes 4 n ++ B), A.length, false⟩ =
      .ok (n, ⟨A ++ (beBytes 4 n ++ B), A.length + 4, false⟩) := by
  have hb : A ++ (beBytes 4 n ++ B) = (A ++ beBytes 4 n) ++ B := (List.append_assoc A _ B).symm
  have ht : (beBytes 4 n ++ B).take 4 = beBytes 4 n := by
    rw [show (4:Nat) = (beBytes 4 n).length from (beBytes_length 4 n).symm]
    exact List.take_left _ _
  have := fread_at A (beBytes 4 n ++ B) 4
  rw [_read_block_size]
  rw [this, ht]
  simp only [Bind.bind, Except.bind, beBytes_length]
  rw [if_neg (by simp)]
  rw [beNat_beBytes 4 n (by simpa using h4)]

/-- `fseekRel` on an open stream. -/
theorem fseekRel_open (bytes : Bytes) (pos n : Nat) :
    fseekRel ⟨bytes, pos, false⟩ n = .ok ⟨bytes, pos + n, false⟩ := by
  simp [fseekRel]

/-! ## C3 -/

/-- C3: for every record whose leading big-endian length word `n` differs
from its trailing length word `m`, both `read_record` (`_read_block`) and
`skip_record` (`_skip_block`) fail with the record-length-mismatch error
and, the result being an error, return no partial payload data. -/
theorem c3_record_length_mismatch (pre payload post : Bytes) (n m : Nat)
    (hn : n < 2 ^ 32) (hm : m < 2 ^ 32) (hne : n ≠ m)
    (hplen : payload.length = n) :
    _read_block ⟨pre ++ (beBytes 4 n ++ (payload ++ (beBytes 4 m ++ post))),
        pre.length, false⟩ =
      .error (.ioError (str "error reading block")) ∧
    _skip_block ⟨pre ++ (beBytes 4 n ++ (payload ++ (beBytes 4 m ++ post))),
        pre.length, false⟩ =
      .error (.ioError (str "error skipping block")) := by
  have hS1 : (⟨pre ++ (beBytes 4 n ++ (payload ++ (beBytes 4 m ++ post))),
      pre.length + 4, false⟩ : UStream) =
      ⟨(pre ++ beBytes 4 n) ++ (payload ++ (beBytes 4 m ++ post)),
       (pre ++ beBytes 4 n).length, false⟩ := by
    rw [UStream.mk.injEq]
    refine ⟨by simp [List.append_assoc], ?_, rfl⟩
    simp [beBytes_length]
  have htake : (payload ++ (beBytes 4 m ++ post)).take n = payload := by
    rw [← hplen]
    exact List.take_left _ _
  have hS2 : (⟨(pre ++ beBytes 4 n) ++ (payload ++ (beBytes 4 m ++ post)),
      (pre ++ beBytes 4 n).length + n, false⟩ : UStream) =
      ⟨((pre ++ beBytes 4 n) ++ payload) ++ (beBytes 4 m ++ post),
       ((pre ++ beBytes 4 n) ++ payload).length, false⟩ := by
    rw [UStream.mk.injEq]
    refine ⟨by simp [List.append_assoc], ?_, rfl⟩
    simp [hplen]
    omega
  constructor
  · rw [_read_block, rbs_at pre _ n hn]
    simp only [except_bind_ok]
    rw [hS1, fread_at, htake, hplen, hS2]
    simp only [except_bind_ok]
    rw [rbs_at ((pre ++ beBytes 4 n) ++ payload) post m hm]
    simp only [except_bind_ok]
    rw [if_pos hne]
  · have hS3 : (⟨pre ++ (beBytes 4 n ++ (payload ++ (beBytes 4 m ++ post))),
        pre.length + 4 + n, false⟩ : UStream) =
        ⟨((pre ++ beBytes 4 n) ++ payload) ++ (beBytes 4 m ++ post),
         ((pre ++ beBytes 4 n) ++ payload).length, false⟩ := by
      rw [UStream.mk.injEq]
      refine ⟨by simp [List.append_assoc], ?_, rfl⟩
      simp [beBytes_length, hplen]
      omega
    rw [_skip_block, rbs_at pre _ n hn]
    simp only [except_bind_ok]
    rw [fseekRel_open]
    simp only [except_bind_ok]
    rw [hS3, rbs_at ((pre ++ beBytes 4 n) ++ payload) post m hm]
    simp only [except_bind_ok]
    rw [if_pos hne]


/-- Witness for C3: a record claiming one payload byte but closed by a
trailing length word of two. -/
theorem c3_record_length_mismatch_witness :
    _read_block ⟨([] : Bytes) ++ (beBytes 4 1 ++ ([7] ++ (beBytes 4 2 ++ []))),
        List.length ([] : Bytes), false⟩ =
      .error (.ioError (str "error reading block")) ∧
    _skip_block ⟨([] : Bytes) ++ (beBytes 4 1 ++ ([7] ++ (beBytes 4 2 ++ []))),
        List.length ([] : Bytes), false⟩ =
      .error (.ioError (str "error skipping block")) :=
  c3_record_length_mismatch [] [7] [] 1 2 (by decide) (by decide) (by decide) (by decide)

/-! ## C4 -/

/-- C4: when fewer than four bytes remain where a length word is expected
(`TruncatedStream`, modelled by `Err.eofError`), the file context ends tree
construction normally, returning the entries collected so far with no
error, while the box context, the dataset context and a payload read all
propagate the condition as a fatal error. -/
theorem c4_truncation_by_context (f : UStream) (fuel : Nat) (dt : Option DType) (isz : Nat)
    (hclosed : f.closed = false) (hshort : f.bytes.length < f.pos + 4)
    (hdt : npItemsize (npDtypeOf dt) = .ok isz) :
    _read_block_size f = .error .eofError ∧
    _read_file_entries (fuel + 1) f = .ok ([], f) ∧
    _read_box_entries (fuel + 1) f = .error .eofError ∧
    _read_dataset_entries (fuel + 1) f = .error .eofError ∧
    _read_array f dt = .error .eofError := by
  have h1 : _read_block_size f = .error .eofError := by
    rw [_read_block_size]
    simp only [fread, hclosed, Bool.false_eq_true, if_false, except_bind_ok,
      List.length_take, List.length_drop]
    rw [if_pos (by omega)]
  have hentry : ∀ fl, _read_entry fl f = .error .eofError := by
    intro fl
    rw [_read_entry, _read_string, _read_block, h1]
    rfl
  refine ⟨h1, ?_, ?_, ?_, ?_⟩
  · rw [_read_file_entries, hentry]
  · rw [_read_box_entries, hentry]
    rfl
  · rw [_read_dataset_entries, hentry]
    rfl
  · rw [_read_array, hdt]
    simp only [except_bind_ok]
    rw [h1]
    rfl

/-- Witness for C4: a two-byte stream at offset zero. -/
theorem c4_truncation_by_context_witness :
    _read_block_size ⟨[0, 0], 0, false⟩ = .error .eofError ∧
    _read_file_entries 1 ⟨[0, 0], 0, false⟩ = .ok ([], ⟨[0, 0], 0, false⟩) ∧
    _read_box_entries 1 ⟨[0, 0], 0, false⟩ = .error .eofError ∧
    _read_dataset_entries 1 ⟨[0, 0], 0, false⟩ = .error .eofError ∧
    _read_array ⟨[0, 0], 0, false⟩ none = .error .eofError :=
  c4_truncation_by_context ⟨[0, 0], 0, false⟩ 0 none 8 (by decide) (by decide) (by decide)

/-! ## C7 -/

/-- Accumulating one mapped element per step equals mapping. -/
theorem foldl_append_singleton_eq_map {α β : Type} (g : α → β) (l : List α) (acc : List β) :
    l.foldl (fun a x => a ++ [g x]) acc = acc ++ l.map g := by
  induction l generalizing acc with
  | nil => simp
  | cons x l ih => simp [ih]

/-- C7: for every `d` parameter text, the computed shape is the reverse of
the sequence of extents `hi - lo + 1` taken over all `lo:hi` pairs that
`_re_dims` extracts in textual order; in particular `d=1:3 1:2` yields the
shape `(2, 3)`. -/
theorem c7_dimension_shape :
    (∀ d : Str, shapeFromD d =
      ((findDims d).map
        (fun p => (natOfDigits p.2 : Int) - (natOfDigits p.1 : Int) + 1)).reverse) ∧
    shapeFromD (str "1:3 1:2") = [2, 3] := by
  constructor
  · intro d
    rw [shapeFromD, foldl_append_singleton_eq_map]
    simp
  · decide

/-- Witness for C7 at the concrete parameter text `4:9`. -/
theorem c7_dimension_shape_witness :
    shapeFromD (str "4:9") =
      ((findDims (str "4:9")).map
        (fun p => (natOfDigits p.2 : Int) - (natOfDigits p.1 : Int) + 1)).reverse :=
  c7_dimension_shape.1 (str "4:9")

/-! ## C10 -/

/-- A scan stops exactly at the first failing character. -/
theorem takeWhile_append_stop (p : Char → Bool) (w t : Str) (c : Char)
    (hw : ∀ x ∈ w, p x = true) (hc : p c = false) :
    (w ++ c :: t).takeWhile p = w ∧ (w ++ c :: t).dropWhile p = c :: t := by
  induction w with
  | nil => simp [List.takeWhile, List.dropWhile, hc]
  | cons a w ih =>
    have ha : p a = true := hw a (by simp)
    have ih2 := ih (fun x hx => hw x (by simp [hx]))
    simp [List.takeWhile, List.dropWhile, ha, ih2.1, ih2.2]

/-- A scan over an all-satisfying list takes everything. -/
theorem takeWhile_all_of (p : Char → Bool) (w : Str)
    (hw : ∀ x ∈ w, p x = true) :
    w.takeWhile p = w ∧ w.dropWhile p = [] := by
  induction w with
  | nil => simp
  | cons a w ih =>
    have ha : p a = true := hw a (by simp)
    have ih2 := ih (fun x hx => hw x (by simp [hx]))
    simp [List.takeWhile, List.dropWhile, ha, ih2.1, ih2.2]

/-- ASCII decode inverts encode. -/
theorem decodeBytes_encodeStr (s : Str) : decodeBytes (encodeStr s) = s := by
  induction s with
  | nil => rfl
  | cons a s ih =>
    simp [decodeBytes, encodeStr, Char.ofNat_toNat] at ih ⊢
    exact ih

/-- C10: descriptor parsing requires exactly one space between the kind
word and the name word.  If the character following the first word run is
anything other than a space, or a space is followed by another non-word
character (in particular a second space), `_parse_descriptor` returns the
no-match result; with exactly one space it parses, yielding the two words. -/
theorem c10_descriptor_separator (w1 rest : Str) (c : Char)
    (hw1 : w1 ≠ []) (hall : ∀ x ∈ w1, isWordChar x = true)
    (hc : isWordChar c = false) :
    (c ≠ ' ' → _parse_descriptor (encodeStr (w1 ++ c :: rest)) = none) ∧
    _parse_descriptor (encodeStr (w1 ++ ' ' :: c :: rest)) = none ∧
    (∀ w2, w2 ≠ [] → (∀ x ∈ w2, isWordChar x = true) →
      _parse_descriptor (encodeStr (w1 ++ ' ' :: w2)) = some (w1, w2, [])) := by
  have hsp : isWordChar ' ' = false := by decide
  have hne : w1.isEmpty = false := by
    cases w1
    · exact absurd rfl hw1
    · rfl
  refine ⟨?_, ?_, ?_⟩
  · intro hcs
    have h1 := takeWhile_append_stop isWordChar w1 rest c hall hc
    have hmd : matchDesc (w1 ++ c :: rest) = none := by
      rw [matchDesc]
      simp only [h1.1, h1.2, hne, Bool.false_eq_true, if_false]
      split
      · rename_i r2 heq
        injection heq with hch _
        exact absurd hch hcs
      · rfl
    rw [_parse_descriptor, decodeBytes_encodeStr, hmd]
  · have h1 := takeWhile_append_stop isWordChar w1 (c :: rest) ' ' hall hsp
    have hmd : matchDesc (w1 ++ ' ' :: c :: rest) = none := by
      rw [matchDesc]
      simp only [h1.1, h1.2, hne, Bool.false_eq_true, if_false]
      simp [List.takeWhile_cons, hc]
    rw [_parse_descriptor, decodeBytes_encodeStr, hmd]
  · intro w2 hw2 hall2
    have h1 := takeWhile_append_stop isWordChar w1 w2 ' ' hall hsp
    have h2 := takeWhile_all_of isWordChar w2 hall2
    have hne2 : w2.isEmpty = false := by
      cases w2
      · exact absurd rfl hw2
      · rfl
    have hmd : matchDesc (w1 ++ ' ' :: w2) = some (w1, w2, []) := by
      rw [matchDesc]
      simp only [h1.1, h1.2, hne, hne2, h2.1, h2.2, Bool.false_eq_true, if_false]
      rfl
    rw [_parse_descriptor, decodeBytes_encodeStr, hmd]
    rfl

/-- Witness for C10: two spaces between the words of `real  name`. -/
theorem c10_descriptor_separator_witness :
    _parse_descriptor (encodeStr (str "real" ++ ' ' :: ' ' :: str "name")) = none :=
  (c10_descriptor_separator (str "real") (str "name") ' '
    (by decide) (by decide) (by decide)).2.1

/-! ## C8 -/

/-- C8: at every stream state whose next descriptor parses to kind `table`,
entry construction fails with the unsupported-entry-kind error, and each of
the three enclosing construction contexts (box, dataset, file) propagates
that same error; the failing results carry no entry list, so no entry is
added for the descriptor. -/
theorem c8_table_rejected (fuel : Nat) (f f1 : UStream) (s : Bytes)
    (nm : Str) (ps : List (Str × Str))
    (hs : _read_string (fuel + 1) f = .ok (s, f1))
    (hp : _parse_descriptor s = some (str "table", nm, ps)) :
    _read_entry (fuel + 1) f =
      .error (.ioError (str "uio files containing tables are not supported")) ∧
    _read_box_entries (fuel + 1) f =
      .error (.ioError (str "uio files containing tables are not supported")) ∧
    _read_dataset_entries (fuel + 1) f =
      .error (.ioError (str "uio files containing tables are not supported")) ∧
    _read_file_entries (fuel + 1) f =
      .error (.ioError (str "uio files containing tables are not supported")) := by
  have he : _read_entry (fuel + 1) f =
      .error (.ioError (str "uio files containing tables are not supported")) := by
    rw [_read_entry, hs]
    simp only [except_bind_ok, hp]
    rw [if_pos trivial]
  refine ⟨he, ?_, ?_, ?_⟩
  · rw [_read_box_entries, he]
    rfl
  · rw [_read_dataset_entries, he]
    rfl
  · rw [_read_file_entries, he]

/-- A one-record stream holding the descriptor `table t`. -/
def c8wBytes : Bytes := recBytes (strBytes "table t")

/-- Witness for C8 on the one-record `table t` stream. -/
theorem c8_table_rejected_witness :
    _read_entry 1 ⟨c8wBytes, 0, false⟩ =
      .error (.ioError (str "uio files containing tables are not supported")) ∧
    _read_box_entries 1 ⟨c8wBytes, 0, false⟩ =
      .error (.ioError (str "uio files containing tables are not supported")) ∧
    _read_dataset_entries 1 ⟨c8wBytes, 0, false⟩ =
      .error (.ioError (str "uio files containing tables are not supported")) ∧
    _read_file_entries 1 ⟨c8wBytes, 0, false⟩ =
      .error (.ioError (str "uio files containing tables are not supported")) :=
  c8_table_rejected 0 ⟨c8wBytes, 0, false⟩ ⟨c8wBytes, 15, false⟩
    (strBytes "table t") (str "t") [] (by decide) (by decide)

/-! ## Frame lemmas: reading never changes the byte content or the closed
flag of the stream -/

/-- `fread` changes only the position. -/
theorem fread_frame (g : UStream) (n : Nat) (d : Bytes) (g2 : UStream)
    (h : fread g n = .ok (d, g2)) : g2.bytes = g.bytes ∧ g2.closed = g.closed := by
  rw [fread] at h
  split at h
  · exact absurd h (by simp)
  · simp only [Except.ok.injEq, Prod.mk.injEq] at h
    rw [← h.2]
    exact ⟨rfl, rfl⟩

/-- `_read_block_size` changes only the position. -/
theorem rbs_frame (g : UStream) (n : Nat) (g2 : UStream)
    (h : _read_block_size g = .ok (n, g2)) : g2.bytes = g.bytes ∧ g2.closed = g.closed := by
  rw [_read_block_size] at h
  cases hf : fread g 4 with
  | error err =>
    rw [hf] at h
    exact absurd h (by simp [except_bind_error])
  | ok p =>
    rw [hf] at h
    obtain ⟨d, g1⟩ := p
    simp only [except_bind_ok] at h
    split at h
    · exact absurd h (by simp)
    · simp only [Except.ok.injEq, Prod.mk.injEq] at h
      rw [← h.2]
      exact fread_frame g 4 d g1 hf

/-- `_read_array` changes only the position. -/
theorem read_array_frame (g : UStream) (dt : Option DType) (a : List Elem) (g2 : UStream)
    (h : _read_array g dt = .ok (a, g2)) : g2.bytes = g.bytes ∧ g2.closed = g.closed := by
  rw [_read_array] at h
  cases hi : npItemsize (npDtypeOf dt) with
  | error err =>
    rw [hi] at h
    exact absurd h (by simp [except_bind_error])
  | ok isz =>
    rw [hi] at h
    simp only [except_bind_ok] at h
    cases h1 : _read_block_size g with
    | error err =>
      rw [h1] at h
      exact absurd h (by simp [except_bind_error])
    | ok p =>
      rw [h1] at h
      obtain ⟨nbytes, ga⟩ := p
      simp only [except_bind_ok] at h
      split at h
      · exact absurd h (by simp)
      · cases h2 : fread ga (nbytes / isz * isz) with
        | error err =>
          rw [h2] at h
          exact absurd h (by simp [except_bind_error])
        | ok q =>
          rw [h2] at h
          obtain ⟨raw, gb⟩ := q
          simp only [except_bind_ok] at h
          cases h3 : _read_block_size gb with
          | error err =>
            rw [h3] at h
            exact absurd h (by simp [except_bind_error])
          | ok r =>
            rw [h3] at h
            obtain ⟨m, gc⟩ := r
            simp only [except_bind_ok] at h
            split at h
            · exact absurd h (by simp)
            · simp only [Except.ok.injEq, Prod.mk.injEq] at h
              rw [← h.2]
              obtain ⟨hb1, hc1⟩ := rbs_frame g nbytes ga h1
              obtain ⟨hb2, hc2⟩ := fread_frame ga _ raw gb h2
              obtain ⟨hb3, hc3⟩ := rbs_frame gb m gc h3
              exact ⟨hb3.trans (hb2.trans hb1), hc3.trans (hc2.trans hc1)⟩

/-- A successful `data` access leaves the byte content and the open state
of the source untouched (and requires the source to be open). -/
theorem data_frame (e : Entry) (f : UStream) (v : DataVal) (f1 : UStream)
    (h : Entry.data e f = .ok (v, f1)) :
    f.closed = false ∧ f1.bytes = f.bytes ∧ f1.closed = false := by
  rw [Entry.data, fseek] at h
  by_cases hc : f.closed = true
  · rw [if_pos hc] at h
    exact absurd h (by simp [except_bind_error])
  · have hcf : f.closed = false := by
      cases hcv : f.closed
      · rfl
      · exact absurd hcv hc
    rw [if_neg hc] at h
    simp only [except_bind_ok] at h
    cases hra : _read_array { f with pos := e.pos } e.dtype with
    | error err =>
      rw [hra] at h
      exact absurd h (by simp [except_bind_error])
    | ok p =>
      rw [hra] at h
      obtain ⟨a, f2⟩ := p
      obtain ⟨hb2, hc2⟩ := read_array_frame _ _ _ _ hra
      simp only [except_bind_ok] at h
      have hgoal : f1 = f2 → f.closed = false ∧ f1.bytes = f.bytes ∧ f1.closed = false := by
        intro he
        exact ⟨hcf, by rw [he, hb2], by rw [he, hc2, hcf]⟩
      clear hra
      split at h
      · split at h
        · cases hnr : npReshape _ a with
          | error err =>
            rw [hnr] at h
            exact absurd h (by simp [except_bind_error])
          | ok dv =>
            rw [hnr] at h
            simp only [except_bind_ok, Except.ok.injEq, Prod.mk.injEq] at h
            exact hgoal h.2.symm
        · split at h
          · simp only [Except.ok.injEq, Prod.mk.injEq] at h
            exact hgoal h.2.symm
          · exact absurd h (by simp)
      · split at h
        · split at h
          · cases hce : charElem _ with
            | error err =>
              rw [hce] at h
              exact absurd h (by simp [except_bind_error])
            | ok bs =>
              rw [hce] at h
              simp only [except_bind_ok, Except.ok.injEq, Prod.mk.injEq] at h
              exact hgoal h.2.symm
          · exact absurd h (by simp)
        · split at h
          · cases hm : a.mapM (fun x =>
                (do
                  let bs ← charElem x
                  pure (bytesRstrip bs) : Except Err Bytes)) with
            | error err =>
              rw [hm] at h
              exact absurd h (by simp [except_bind_error])
            | ok ss =>
              rw [hm] at h
              simp only [except_bind_ok, Except.ok.injEq, Prod.mk.injEq] at h
              exact hgoal h.2.symm
          · cases hnr : npReshape _ a with
            | error err =>
              rw [hnr] at h
              exact absurd h (by simp [except_bind_error])
            | ok dv =>
              rw [hnr] at h
              simp only [except_bind_ok, Except.ok.injEq, Prod.mk.injEq] at h
              exact hgoal h.2.symm

/-! ## C9 -/

/-- `data` seeks before reading, so its result never depends on the
current stream position. -/
theorem data_pos_irrel (e : Entry) (b : Bytes) (p q : Nat) (c : Bool) :
    Entry.data e ⟨b, p, c⟩ = Entry.data e ⟨b, q, c⟩ := rfl

/-- C9: if a `data` access on an Entry succeeds with value `v` leaving the
stream in state `f1`, then a second access on the very same unchanged Entry
returns the same value `v` again and the same final state — and, because
each access begins with its own seek to the stored position, the repeated
access yields this same result from any starting position whatsoever.  The
byte source is not mutated by the access (same bytes, same closed flag);
the Entry, a pure value whose fields the accessor never rebinds, is the
same on both calls by construction. -/
theorem c9_lazy_reread (e : Entry) (f f1 : UStream) (v : DataVal)
    (h : Entry.data e f = .ok (v, f1)) :
    Entry.data e f1 = .ok (v, f1) ∧
    (∀ p, Entry.data e { f1 with pos := p } = .ok (v, f1)) ∧
    f1.bytes = f.bytes ∧ f1.closed = f.closed := by
  obtain ⟨hc, hb, hcl⟩ := data_frame e f v f1 h
  have hpos : ∀ g : UStream, g.bytes = f.bytes → g.closed = f.closed →
      Entry.data e g = Entry.data e f := by
    intro g hgb hgc
    cases g with
    | mk gb gp gc =>
      cases f with
      | mk fb fp fc =>
        simp only at hgb hgc
        subst hgb
        subst hgc
        exact data_pos_irrel e _ _ _ _
  refine ⟨?_, ?_, hb, hcl.trans hc.symm⟩
  · rw [hpos f1 hb (hcl.trans hc.symm)]
    exact h
  · intro p
    rw [hpos { f1 with pos := p } hb (hcl.trans hc.symm)]
    exact h

/-- A one-record stream holding one big-endian binary64 payload. -/
def c9wBytes : Bytes := recBytes (beBytes 8 0x3FF8000000000000)

/-- Witness for C9: the second access on the stream state left by a first
successful access returns the same scalar and the same state. -/
theorem c9_lazy_reread_witness :
    Entry.data ⟨0, str "real", str "x", [], some (DType.f 8), none⟩ ⟨c9wBytes, 16, false⟩ =
      .ok (.scalar (.float 8 0x3FF8000000000000), ⟨c9wBytes, 16, false⟩) :=
  (c9_lazy_reread ⟨0, str "real", str "x", [], some (DType.f 8), none⟩
    ⟨c9wBytes, 0, false⟩ ⟨c9wBytes, 16, false⟩
    (.scalar (.float 8 0x3FF8000000000000)) (by decide)).1

/-! ## C6 -/

/-- The element loop of the 1-D character branch, on the accumulator form
of `List.mapM`. -/
theorem mapM_charElem_loop (ss acc : List Bytes) :
    List.mapM.loop (fun x =>
      (do
        let bs ← charElem x
        pure (bytesRstrip bs) : Except Err Bytes)) (ss.map Elem.strE) acc =
      .ok (acc.reverse ++ ss.map (fun bs => bytesRstrip (npStripNuls bs))) := by
  induction ss generalizing acc with
  | nil =>
    simp only [List.map_nil, List.mapM.loop, List.append_nil]
    rfl
  | cons b ss ih =>
    have hch : charElem (Elem.strE b) = Except.ok (npStripNuls b) := rfl
    have hbp : ∀ (x : Bytes) (k : Bytes → Except Err (List Bytes)),
        ((pure x : Except Err Bytes) >>= k) = k x := fun _ _ => rfl
    simp only [List.map_cons, List.mapM.loop, hch, except_bind_ok, hbp, ih]
    simp [List.append_assoc]

/-- Trimming a list of byte-string elements maps NUL stripping and
whitespace trimming over the underlying byte strings. -/
theorem mapM_charElem (ss : List Bytes) :
    (ss.map Elem.strE).mapM (fun x =>
      (do
        let bs ← charElem x
        pure (bytesRstrip bs) : Except Err Bytes)) =
      .ok (ss.map (fun bs => bytesRstrip (npStripNuls bs))) := by
  rw [List.mapM, mapM_charElem_loop]
  rfl

/-- C6: for a character-kind entry whose payload read succeeds, `data`
returns: with no `d` parameter (shape `none`) the single first element as
one trimmed string; with a one-dimensional shape the ordered list of
per-element trimmed strings; with a shape of two or more dimensions the
reshaped block with elements untouched (no per-element trimming).
Trimming is numpy scalar extraction (drop trailing NULs) followed by
`rstrip` (drop trailing whitespace). -/
theorem c6_character_semantics (e : Entry) (f f2 : UStream) (a : List Elem)
    (hty : e.type = str "character")
    (hclosed : f.closed = false)
    (hread : _read_array ⟨f.bytes, e.pos, false⟩ e.dtype = .ok (a, f2)) :
    (∀ bs, e.shape = none → a.head? = some (.strE bs) →
      Entry.data e f = .ok (.strScalar (bytesRstrip (npStripNuls bs)), f2)) ∧
    (∀ (n : Int) (ss : List Bytes), e.shape = some [n] → a = ss.map Elem.strE →
      Entry.data e f =
        .ok (.strList (ss.map (fun bs => bytesRstrip (npStripNuls bs))), f2)) ∧
    (∀ sh, e.shape = some sh → 2 ≤ sh.length →
      (sh.all (fun d => 0 ≤ d) ∧ sh.foldl (fun acc d => acc * d.toNat) 1 = a.length) →
      Entry.data e f = .ok (.arr sh a, f2)) := by
  have hpre1 : e.shape = none → Entry.data e f =
      (match a.head? with
       | some x => do
         let bs ← charElem x
         Except.ok (DataVal.strScalar (bytesRstrip bs), f2)
       | none => Except.error Err.indexError) := by
    intro hsh
    rw [Entry.data, fseek]
    simp only [hclosed, Bool.false_eq_true, if_false, except_bind_ok]
    rw [hread]
    simp only [except_bind_ok]
    rw [if_neg (fun hh => hh hty), hsh]
  have hpre2 : ∀ sh, e.shape = some sh → Entry.data e f =
      (if sh.length = 1 then do
        let ss ← a.mapM (fun x => do
          let bs ← charElem x
          pure (bytesRstrip bs))
        Except.ok (DataVal.strList ss, f2)
      else do
        let v ← npReshape sh a
        Except.ok (v, f2)) := by
    intro sh hsh
    rw [Entry.data, fseek]
    simp only [hclosed, Bool.false_eq_true, if_false, except_bind_ok]
    rw [hread]
    simp only [except_bind_ok]
    rw [if_neg (fun hh => hh hty), hsh]
  refine ⟨?_, ?_, ?_⟩
  · intro bs hsh hhead
    rw [hpre1 hsh, hhead]
    rfl
  · intro n ss hsh ha
    subst ha
    rw [hpre2 [n] hsh]
    rw [if_pos (show ([n] : List Int).length = 1 from rfl)]
    rw [mapM_charElem]
    rfl
  · intro sh hsh h2 hok
    rw [hpre2 sh hsh]
    rw [if_neg (by omega)]
    rw [npReshape, if_pos hok]
    rfl

/-- A one-record stream holding the two character bytes of `a` and a
trailing space. -/
def c6wBytes : Bytes := recBytes (strBytes "a ")

/-- Witness for C6: a scalar character entry of width two reads `a ` and
trims it to `a`. -/
theorem c6_character_semantics_witness :
    Entry.data ⟨0, str "character", str "x", [], some (DType.s 2), none⟩
        ⟨c6wBytes, 3, false⟩ =
      .ok (.strScalar (bytesRstrip (npStripNuls [97, 32])), ⟨c6wBytes, 10, false⟩) :=
  (c6_character_semantics ⟨0, str "character", str "x", [], some (DType.s 2), none⟩
    ⟨c6wBytes, 3, false⟩ ⟨c6wBytes, 10, false⟩ [.strE [97, 32]]
    (by decide) (by decide) (by decide)).1 [97, 32] rfl rfl
